import Mathlib

/-!
# Verification of the SERP collector query dispatcher

Shallow embedding of `src/api/server.js` (and the schema in
`src/database/init.sql`) of the `serp-collector-server` repository.

The store is modelled as lists of rows mirroring the SQL tables.  Each SQL
statement issued by the server is embedded as a function on the store,
giving its non-overlapping (serial) execution.  Timestamps are modelled by
a monotone logical clock `Store.time`; generated ids by a counter
`Store.nextId`.  Where the outcome of an overlapping execution differs
from every serialization, the overlapping execution is modelled
explicitly: `claimNextRC` for the claim statement under READ COMMITTED
(its subselect snapshot decoupled from the store the update applies to),
and `postResultsPool` for the submission handler's statements dispatched
by `pool.query` to connections outside the `BEGIN` transaction's scope.
-/

/-- Status of a query row (`queries.status`). -/
inductive Status where
  | pending
  | processing
  | completed
deriving DecidableEq, Repr

/-- A row of the `queries` table (`src/database/init.sql`). -/
structure QueryRow where
  id : Nat
  project_id : Nat
  search_term : String
  status : Status
  priority : Int
  created_at : Nat
  processed_at : Option Nat
deriving DecidableEq, Repr

/-- A row of the `results` table. -/
structure ResultRow where
  query_id : Nat
  page_number : Int
  position : Int
  title : String
  url : String
  domain : String
  description : String
  result_type : String
deriving DecidableEq, Repr

/-- A row of the `suggestions` table. -/
structure SuggestionRow where
  query_id : Nat
  suggestion : String
deriving DecidableEq, Repr

/-- A row of the `related_searches` table. -/
structure RelatedRow where
  query_id : Nat
  search_term : String
deriving DecidableEq, Repr

/-- The relational store: one list per table (projects are kept as their
ids, which is all the server's queries about them need for the claims
verified here). -/
structure Store where
  projects : List Nat
  queries : List QueryRow
  results : List ResultRow
  suggestions : List SuggestionRow
  related_searches : List RelatedRow
  nextId : Nat
  time : Nat
deriving DecidableEq, Repr

/-- `ORDER BY priority DESC, created_at`: `a` sorts strictly before `b`. -/
def betterQ (a b : QueryRow) : Bool :=
  b.priority < a.priority || (a.priority == b.priority && a.created_at < b.created_at)

/-- Fold keeping the first row that is best for `ORDER BY priority DESC,
created_at` (ties beyond both keys resolve to the earlier list element,
one arbitrary but fixed choice, as the SQL leaves them unspecified). -/
def chooseBest (q : QueryRow) (qs : List QueryRow) : QueryRow :=
  qs.foldl (fun b x => if betterQ x b then x else b) q

/-- The subselect of the claim statement:
`SELECT id FROM queries WHERE status = 'pending' ORDER BY priority DESC, created_at LIMIT 1`
(embedded as returning the whole selected row; the statement only uses its id). -/
def selectNext (qs : List QueryRow) : Option QueryRow :=
  match qs.filter (fun q => q.status == Status.pending) with
  | [] => none
  | q :: rest => some (chooseBest q rest)

/-- `SET status = 'processing', processed_at = CURRENT_TIMESTAMP` applied to one row. -/
def claimUpd (now : Nat) (q : QueryRow) : QueryRow :=
  { q with status := Status.processing, processed_at := some now }

/-- Response body of `GET /api/v1/queries/next` when a row was claimed. -/
structure ClaimResp where
  query_id : Nat
  search_term : String
  max_pages : Nat
deriving DecidableEq, Repr

/-- The claim statement of `GET /api/v1/queries/next`:
`UPDATE queries SET status='processing', processed_at=CURRENT_TIMESTAMP
 WHERE id = (subselect) RETURNING id, search_term`,
one atomic conditional update.  Returns the JSON answer (`some` claimed
row with `max_pages := 5`, or `none` for "no work") and the new store. -/
def claimNext (s : Store) : Option ClaimResp × Store :=
  match selectNext s.queries with
  | none => (none, s)
  | some q =>
      (some ⟨q.id, q.search_term, 5⟩,
       { s with
          queries := s.queries.map (fun x => if x.id == q.id then claimUpd s.time x else x),
          time := s.time + 1 })

/-- The claim statement as executed by a transaction that overlaps a
concurrently committed claim, under Postgres READ COMMITTED (the
default; the source sets no isolation level).  The uncorrelated
subselect is an InitPlan, evaluated once against the statement's
snapshot `snap`, taken before the concurrent claim committed.  The outer
`UPDATE` then runs against the current store `s`: it blocks on the
concurrent claim's row lock and, once that commit is visible, its
EvalPlanQual recheck re-evaluates only the outer qual `id = $X` on the
newest row version.  The source has no `FOR UPDATE`/`SKIP LOCKED` in the
subselect and no `status = 'pending'` qual on the `UPDATE`, so the
recheck passes whenever a row with that id still exists, whatever its
current status; the row is updated again and returned (`RETURNING id,
search_term` reads the new tuple, whose `id` and `search_term` the SET
list does not change).  `claimNextRC s s` is the non-overlapping
execution and coincides with `claimNext` (`claimNextRC_self`). -/
def claimNextRC (snap s : Store) : Option ClaimResp × Store :=
  match selectNext snap.queries with
  | none => (none, s)
  | some q =>
      match s.queries.find? (fun x => x.id == q.id) with
      | none => (none, s)
      | some cur =>
          (some ⟨cur.id, cur.search_term, 5⟩,
           { s with
              queries := s.queries.map
                (fun x => if x.id == q.id then claimUpd s.time x else x),
              time := s.time + 1 })

-- ===== POST /api/v1/results =====

/-- One scraped result inside a page of the request body
(`page.results[i]` in `src/api/server.js`); `rtype` models the optional
`result.type` field (`result.type || 'organic'`). -/
structure RawResult where
  position : Int
  title : String
  url : String
  domain : String
  description : String
  rtype : Option String
deriving DecidableEq, Repr

/-- One page of the request body; `results` is `none` when `page.results`
is absent or not an array (the handler then skips the page). -/
structure Page where
  page_number : Int
  results : Option (List RawResult)
deriving DecidableEq, Repr

/-- Body of `POST /api/v1/results`.  Optional fields are `none` when the
JSON field is missing (or, for the two arrays, not an array). -/
structure SubmitReq where
  query_id : Option Nat
  pages : Option (List Page)
  suggestions : Option (List String)
  related_searches : Option (List String)
deriving DecidableEq, Repr

/-- Postgres `INTEGER` range check (the only way an insert of the modelled
data can fail besides a foreign-key violation). -/
def int32Ok (n : Int) : Bool :=
  -2147483648 ≤ n && n < 2147483648

/-- The row built by the `INSERT INTO results ...` statement. -/
def mkResultRow (qid : Nat) (p : Page) (r : RawResult) : ResultRow :=
  { query_id := qid, page_number := p.page_number, position := r.position,
    title := r.title, url := r.url, domain := r.domain, description := r.description,
    result_type := match r.rtype with
      | none => "organic"
      | some t => if t == "" then "organic" else t }

/-- The result rows produced by the nested `for (const page of pages)` /
`for (const result of page.results)` loops, in execution order. -/
def collectResultRows (qid : Nat) : List Page → List ResultRow
  | [] => []
  | p :: ps =>
      (match p.results with
        | none => []
        | some rs => rs.map (mkResultRow qid p)) ++ collectResultRows qid ps

/-- `INSERT INTO results ...`: fails on a foreign-key violation or an
out-of-range `INTEGER`, otherwise appends the row. -/
def insertResult (s : Store) (r : ResultRow) : Except String Store :=
  if s.queries.all (fun q => q.id != r.query_id) then
    .error "results_query_id_fkey"
  else if !(int32Ok r.page_number && int32Ok r.position) then
    .error "integer out of range"
  else
    .ok { s with results := s.results ++ [r] }

/-- `INSERT INTO suggestions (query_id, suggestion) VALUES ($1, $2)`. -/
def insertSuggestion (s : Store) (qid : Nat) (text : String) : Except String Store :=
  if s.queries.all (fun q => q.id != qid) then
    .error "suggestions_query_id_fkey"
  else
    .ok { s with suggestions := s.suggestions ++ [⟨qid, text⟩] }

/-- `INSERT INTO related_searches (query_id, search_term) VALUES ($1, $2)`. -/
def insertRelated (s : Store) (qid : Nat) (text : String) : Except String Store :=
  if s.queries.all (fun q => q.id != qid) then
    .error "related_searches_query_id_fkey"
  else
    .ok { s with related_searches := s.related_searches ++ [⟨qid, text⟩] }

/-- `UPDATE queries SET status = 'completed' WHERE id = $2` (unconditional
on the current status of the matching row). -/
def updateCompleted (s : Store) (qid : Nat) : Store :=
  { s with
      queries := s.queries.map
        (fun q => if q.id == qid then { q with status := Status.completed } else q) }

/-- Runs the result-insert loop statement by statement.  Returns the first
error (if any), the store after every statement that executed (each one
already applied), and the number of insert statements executed. -/
def runResults (s : Store) : List ResultRow → Option String × Store × Nat
  | [] => (none, s, 0)
  | r :: rs =>
      match insertResult s r with
      | .error e => (some e, s, 1)
      | .ok s' =>
          let (e, s'', n) := runResults s' rs
          (e, s'', n + 1)

/-- Runs the suggestion-insert loop statement by statement. -/
def runSuggestions (s : Store) (qid : Nat) : List String → Option String × Store × Nat
  | [] => (none, s, 0)
  | t :: ts =>
      match insertSuggestion s qid t with
      | .error e => (some e, s, 1)
      | .ok s' =>
          let (e, s'', n) := runSuggestions s' qid ts
          (e, s'', n + 1)

/-- Runs the related-search-insert loop statement by statement. -/
def runRelated (s : Store) (qid : Nat) : List String → Option String × Store × Nat
  | [] => (none, s, 0)
  | t :: ts =>
      match insertRelated s qid t with
      | .error e => (some e, s, 1)
      | .ok s' =>
          let (e, s'', n) := runRelated s' qid ts
          (e, s'', n + 1)

/-- The statement sequence of the `POST /api/v1/results` body between
`BEGIN` and `COMMIT`, executed in order, stopping at the first error:
result inserts, suggestion inserts, related-search inserts, then the
status update.  Returns the first error (if any), the store reflecting
every statement that executed, and the number of statements executed
(inserts plus the final update). -/
def runSubmitStmts (s : Store) (qid : Nat) (pages : List Page)
    (sugg rel : List String) : Option String × Store × Nat :=
  match runResults s (collectResultRows qid pages) with
  | (some e, s1, n1) => (some e, s1, n1)
  | (none, s1, n1) =>
      match runSuggestions s1 qid sugg with
      | (some e, s2, n2) => (some e, s2, n1 + n2)
      | (none, s2, n2) =>
          match runRelated s2 qid rel with
          | (some e, s3, n3) => (some e, s3, n1 + n2 + n3)
          | (none, s3, n3) => (none, updateCompleted s3 qid, n1 + n2 + n3 + 1)

/-- Responses of `POST /api/v1/results`. -/
inductive SubmitResp where
  | success
  | validationError
  | storageError (msg : String)
  | unauthorized
deriving DecidableEq, Repr

/-- The `POST /api/v1/results` handler body (after the API-key check),
under single-connection transactional semantics: `BEGIN` ... `COMMIT` on
one connection, so on an error the `ROLLBACK` discards every statement of
the request and the original store is returned.  The third component
counts the storage statements executed (`BEGIN`, the inserts/update, and
`COMMIT` or `ROLLBACK`); a validation rejection executes none. -/
def postResultsBody (s : Store) (req : SubmitReq) : SubmitResp × Store × Nat :=
  match req.query_id, req.pages with
  | none, _ => (.validationError, s, 0)
  | some _, none => (.validationError, s, 0)
  | some qid, some pages =>
      match runSubmitStmts s qid pages (req.suggestions.getD []) (req.related_searches.getD []) with
      | (some e, _, n) => (.storageError e, s, n + 2)
      | (none, s', n) => (.success, s', n + 2)

/-- The `POST /api/v1/results` handler body under the dispatch semantics
of `pool.query` (node-postgres `Pool`): every statement, including
`BEGIN` and `ROLLBACK`, is dispatched to whichever pooled connection is
idle, so in an execution where the connection that ran `BEGIN` is not the
one running the later statements, each insert autocommits individually
and the `ROLLBACK` undoes nothing.  On an error the store keeps every
statement that executed before the failure. -/
def postResultsPool (s : Store) (req : SubmitReq) : SubmitResp × Store × Nat :=
  match req.query_id, req.pages with
  | none, _ => (.validationError, s, 0)
  | some _, none => (.validationError, s, 0)
  | some qid, some pages =>
      match runSubmitStmts s qid pages (req.suggestions.getD []) (req.related_searches.getD []) with
      | (some e, s', n) => (.storageError e, s', n + 2)
      | (none, s', n) => (.success, s', n + 2)

-- ===== API-key middleware and worker endpoints =====

/-- `validateApiKey`: `!apiKey || apiKey !== process.env.API_KEY` rejects.
`none` models a missing `x-api-key` header; the empty string is falsy in
JavaScript and is likewise rejected. -/
def validApiKey (apiKey : Option String) (secret : String) : Bool :=
  match apiKey with
  | none => false
  | some k => if k == "" then false else k == secret

/-- Responses of `GET /api/v1/queries/next`. -/
inductive NextResp where
  | claimed (r : ClaimResp)
  | noWork
  | unauthorized
deriving DecidableEq, Repr

/-- `GET /api/v1/queries/next` including the `validateApiKey` middleware.
The third component counts storage statements executed (the single
claim `UPDATE`); an unauthorized request executes none. -/
def getNextQuery (apiKey : Option String) (secret : String) (s : Store) :
    NextResp × Store × Nat :=
  if validApiKey apiKey secret then
    match claimNext s with
    | (some r, s') => (.claimed r, s', 1)
    | (none, s') => (.noWork, s', 1)
  else
    (.unauthorized, s, 0)

/-- `POST /api/v1/results` including the `validateApiKey` middleware. -/
def postResults (apiKey : Option String) (secret : String) (s : Store)
    (req : SubmitReq) : SubmitResp × Store × Nat :=
  if validApiKey apiKey secret then postResultsBody s req
  else (.unauthorized, s, 0)

-- ===== POST /api/v1/admin/projects/:project_id/queries =====

/-- A worker operation against the store (the two endpoints that mutate
query statuses). -/
inductive Op where
  | claim
  | submit (req : SubmitReq)
deriving DecidableEq, Repr

/-- The store mutation performed by one operation (responses discarded;
submission under the transactional semantics of the handler). -/
def applyOp (s : Store) : Op → Store
  | .claim => (claimNext s).2
  | .submit req => (postResultsBody s req).2.1

/-- The stores observed along a trace: the initial store and the store
after each operation. -/
def statesOf : Store → List Op → List Store
  | s, [] => [s]
  | s, o :: os => s :: statesOf (applyOp s o) os

/-- The status column of the query with id `qid` (`find?` mirrors a
lookup by primary key). -/
def statusOf (s : Store) (qid : Nat) : Option Status :=
  (s.queries.find? (fun q => q.id == qid)).map (fun q => q.status)

/-- Position of a status in the lifecycle order
`pending → processing → completed`. -/
def statusRank : Status → Nat
  | .pending => 0
  | .processing => 1
  | .completed => 2

/-- The status sequence of query `qid` observed over a trace: its status
at each observation point, with consecutive repetitions collapsed (an
observer sees a status change only when it happens). -/
def statusHistory (qid : Nat) (s : Store) (ops : List Op) : List Status :=
  ((statesOf s ops).filterMap (fun st => statusOf st qid)).destutter (· ≠ ·)

/-- Non-strict lifecycle order on statuses. -/
def statusLE (a b : Status) : Prop :=
  statusRank a ≤ statusRank b

/-- Strict lifecycle order on statuses. -/
def statusLT (a b : Status) : Prop :=
  statusRank a < statusRank b

instance (a b : Status) : Decidable (statusLE a b) :=
  inferInstanceAs (Decidable (statusRank a ≤ statusRank b))

instance (a b : Status) : Decidable (statusLT a b) :=
  inferInstanceAs (Decidable (statusRank a < statusRank b))

instance : IsTrans Status statusLE :=
  ⟨fun _ _ _ h1 h2 => Nat.le_trans h1 h2⟩

instance : IsTrans Status statusLT :=
  ⟨fun _ _ _ h1 h2 => Nat.lt_trans h1 h2⟩

instance : IsAntisymm Status statusLT :=
  ⟨fun _ _ h1 h2 => absurd h1 (Nat.lt_asymm h2)⟩

-- ===== Concrete stores and requests used by witnesses and counterexamples =====

/-- A store with one completed query (id 1) and one pending query (id 2). -/
def frameStore : Store :=
  { projects := [1],
    queries :=
      [{ id := 1, project_id := 1, search_term := "done", status := Status.completed,
         priority := 9, created_at := 0, processed_at := some 0 },
       { id := 2, project_id := 1, search_term := "work", status := Status.pending,
         priority := 1, created_at := 3, processed_at := none }],
    results := [], suggestions := [], related_searches := [],
    nextId := 3, time := 7 }

/-- `frameStore` after its one pending query (id 2) was claimed. -/
def frameStoreAfter : Store :=
  { projects := [1],
    queries :=
      [{ id := 1, project_id := 1, search_term := "done", status := Status.completed,
         priority := 9, created_at := 0, processed_at := some 0 },
       { id := 2, project_id := 1, search_term := "work", status := Status.processing,
         priority := 1, created_at := 3, processed_at := some 7 }],
    results := [], suggestions := [], related_searches := [],
    nextId := 3, time := 8 }

/-- A store with a single query (id 7) in status `processing`. -/
def procStore : Store :=
  { projects := [1],
    queries :=
      [{ id := 7, project_id := 1, search_term := "q7", status := Status.processing,
         priority := 0, created_at := 0, processed_at := some 0 }],
    results := [], suggestions := [], related_searches := [],
    nextId := 8, time := 1 }

/-- A scraped result with everything in range except the given position. -/
def mkRaw (pos : Int) : RawResult :=
  { position := pos, title := "t", url := "u", domain := "d",
    description := "x", rtype := none }

/-- A submission for query 7 whose third result row overflows the
`INTEGER` column `position` (2^31), making its insert fail after two
result rows have already been inserted. -/
def overflowReq : SubmitReq :=
  { query_id := some 7,
    pages := some [{ page_number := 1, results := some [mkRaw 1, mkRaw 2, mkRaw 2147483648] }],
    suggestions := none, related_searches := none }

/-- A well-formed submission for query 7: one page, one result, one
suggestion, one related search. -/
def okReq : SubmitReq :=
  { query_id := some 7,
    pages := some [{ page_number := 1, results := some [mkRaw 1] }],
    suggestions := some ["s1"], related_searches := some ["r1"] }

/-- A store with a single `pending` query (id 1). -/
def pendStore : Store :=
  { projects := [1],
    queries :=
      [{ id := 1, project_id := 1, search_term := "p", status := Status.pending,
         priority := 0, created_at := 0, processed_at := none }],
    results := [], suggestions := [], related_searches := [],
    nextId := 2, time := 1 }

/-- A submission for query 1 with an empty pages array (`pages: []` is
truthy in JavaScript, so it passes the handler's validation). -/
def emptyPagesReq : SubmitReq :=
  { query_id := some 1, pages := some [], suggestions := none, related_searches := none }

/-- `procStore` after one successful `okReq` submission. -/
def procStoreOnce : Store :=
  { projects := [1],
    queries :=
      [{ id := 7, project_id := 1, search_term := "q7", status := Status.completed,
         priority := 0, created_at := 0, processed_at := some 0 }],
    results :=
      [{ query_id := 7, page_number := 1, position := 1, title := "t", url := "u",
         domain := "d", description := "x", result_type := "organic" }],
    suggestions := [⟨7, "s1"⟩], related_searches := [⟨7, "r1"⟩],
    nextId := 8, time := 1 }

/-- `procStore` after two successful `okReq` submissions: every child row
appears twice. -/
def procStoreTwice : Store :=
  { projects := [1],
    queries :=
      [{ id := 7, project_id := 1, search_term := "q7", status := Status.completed,
         priority := 0, created_at := 0, processed_at := some 0 }],
    results :=
      [{ query_id := 7, page_number := 1, position := 1, title := "t", url := "u",
         domain := "d", description := "x", result_type := "organic" },
       { query_id := 7, page_number := 1, position := 1, title := "t", url := "u",
         domain := "d", description := "x", result_type := "organic" }],
    suggestions := [⟨7, "s1"⟩, ⟨7, "s1"⟩],
    related_searches := [⟨7, "r1"⟩, ⟨7, "r1"⟩],
    nextId := 8, time := 1 }

-- Arithmetic characterization of the ORDER BY comparison.

theorem betterQ_iff (a b : QueryRow) :
    betterQ a b = true ↔
      b.priority < a.priority ∨ (a.priority = b.priority ∧ a.created_at < b.created_at) := by
  simp [betterQ]

theorem betterQ_false_iff (a b : QueryRow) :
    betterQ a b = false ↔
      a.priority < b.priority ∨ (a.priority = b.priority ∧ b.created_at ≤ a.created_at) := by
  rw [← Bool.not_eq_true, betterQ_iff]
  omega

theorem betterQ_irrefl (a : QueryRow) : betterQ a a = false := by
  rw [betterQ_false_iff]
  omega

theorem betterQ_asymm (a b : QueryRow) (h : betterQ a b = true) : betterQ b a = false := by
  rw [betterQ_iff] at h
  rw [betterQ_false_iff]
  omega

theorem betterQ_false_trans (a b c : QueryRow)
    (h1 : betterQ a b = false) (h2 : betterQ b c = false) : betterQ a c = false := by
  rw [betterQ_false_iff] at h1 h2 ⊢
  omega

-- The fold implementing ORDER BY ... LIMIT 1 returns a member that no
-- other candidate sorts strictly before.

theorem chooseBest_cons (q x : QueryRow) (xs : List QueryRow) :
    chooseBest q (x :: xs) = chooseBest (if betterQ x q then x else q) xs := rfl

theorem chooseBest_mem (q : QueryRow) (qs : List QueryRow) :
    chooseBest q qs ∈ q :: qs := by
  induction qs generalizing q with
  | nil => simp [chooseBest]
  | cons x xs ih =>
      rw [chooseBest_cons]
      cases h : betterQ x q with
      | true =>
          simp only [h, if_true]
          have := ih x
          simp only [List.mem_cons] at this ⊢
          tauto
      | false =>
          simp only [h, Bool.false_eq_true, if_false]
          have := ih q
          simp only [List.mem_cons] at this ⊢
          tauto

theorem chooseBest_not_better (q : QueryRow) (qs : List QueryRow) :
    ∀ z ∈ q :: qs, betterQ z (chooseBest q qs) = false := by
  induction qs generalizing q with
  | nil =>
      intro z hz
      simp only [List.mem_cons, List.not_mem_nil, or_false] at hz
      subst hz
      simpa [chooseBest] using betterQ_irrefl z
  | cons x xs ih =>
      intro z hz
      rw [chooseBest_cons]
      cases h : betterQ x q with
      | true =>
          simp only [h, if_true]
          simp only [List.mem_cons] at hz
          rcases hz with hz | hz | hz
          · subst hz
            exact betterQ_false_trans z x _ (betterQ_asymm x z h) (ih x x (by simp))
          · subst hz
            exact ih z z (by simp)
          · exact ih x z (by simp [hz])
      | false =>
          simp only [h, Bool.false_eq_true, if_false]
          simp only [List.mem_cons] at hz
          rcases hz with hz | hz | hz
          · subst hz
            exact ih z z (by simp)
          · subst hz
            exact betterQ_false_trans z q _ h (ih q q (by simp))
          · exact ih q z (by simp [hz])

-- Specification of selectNext.

theorem selectNext_eq_none_iff (qs : List QueryRow) :
    selectNext qs = none ↔ ∀ q ∈ qs, q.status ≠ Status.pending := by
  unfold selectNext
  cases hf : qs.filter (fun q => q.status == Status.pending) with
  | nil =>
      simp only [true_iff]
      intro q hq hstat
      have : q ∈ qs.filter (fun q => q.status == Status.pending) := by
        rw [List.mem_filter]
        exact ⟨hq, by simp [hstat]⟩
      rw [hf] at this
      simp at this
  | cons a l =>
      simp only [reduceCtorEq, false_iff, not_forall]
      have ha : a ∈ qs.filter (fun q => q.status == Status.pending) := by
        rw [hf]; simp
      rw [List.mem_filter] at ha
      exact ⟨a, ha.1, by simpa using ha.2⟩

theorem selectNext_spec (qs : List QueryRow) (q : QueryRow)
    (h : selectNext qs = some q) :
    q ∈ qs ∧ q.status = Status.pending ∧
      ∀ x ∈ qs, x.status = Status.pending → betterQ x q = false := by
  unfold selectNext at h
  cases hf : qs.filter (fun q => q.status == Status.pending) with
  | nil => rw [hf] at h; simp at h
  | cons a l =>
      rw [hf] at h
      simp only [Option.some.injEq] at h
      subst h
      have hmem : chooseBest a l ∈ a :: l := chooseBest_mem a l
      have hmem' : chooseBest a l ∈ qs.filter (fun q => q.status == Status.pending) := by
        rw [hf]; exact hmem
      rw [List.mem_filter] at hmem'
      refine ⟨hmem'.1, by simpa using hmem'.2, ?_⟩
      intro x hx hxs
      have hxf : x ∈ qs.filter (fun q => q.status == Status.pending) := by
        rw [List.mem_filter]
        exact ⟨hx, by simp [hxs]⟩
      rw [hf] at hxf
      exact chooseBest_not_better a l x hxf

-- ===== Facts about the claim operation =====

theorem claimNext_of_selected (s : Store) (q : QueryRow)
    (hsel : selectNext s.queries = some q) :
    claimNext s =
      (some ⟨q.id, q.search_term, 5⟩,
       { s with
          queries := s.queries.map (fun x => if x.id == q.id then claimUpd s.time x else x),
          time := s.time + 1 }) := by
  simp [claimNext, hsel]

theorem claimNext_of_none (s : Store)
    (hsel : selectNext s.queries = none) : claimNext s = (none, s) := by
  simp [claimNext, hsel]

theorem claimNextRC_self (s : Store)
    (hnd : (s.queries.map (fun q => q.id)).Nodup) :
    claimNextRC s s = claimNext s := by
  cases hsel : selectNext s.queries with
  | none =>
      rw [claimNext_of_none s hsel]
      unfold claimNextRC
      rw [hsel]
  | some q =>
      rw [claimNext_of_selected s q hsel]
      obtain ⟨hmem, _, _⟩ := selectNext_spec s.queries q hsel
      have hsome : (s.queries.find? (fun x => x.id == q.id)).isSome :=
        List.find?_isSome.mpr ⟨q, hmem, by simp⟩
      obtain ⟨cur, hcur⟩ := Option.isSome_iff_exists.mp hsome
      have hcid : cur.id = q.id := by
        have := List.find?_some hcur
        simpa using this
      have hcmem : cur ∈ s.queries := List.mem_of_find?_eq_some hcur
      have hcq : cur = q := List.inj_on_of_nodup_map hnd hcmem hmem hcid
      subst hcq
      simp only [claimNextRC, hsel, hcur]

/-- **C1 (code bug).** Claim C1 demands that even under concurrent polling
the same query row is never returned to two callers.  The source claim
statement has no `FOR UPDATE`/`SKIP LOCKED` in its subselect and no
`status = 'pending'` qual on the outer `UPDATE`, so under READ COMMITTED
two overlapping claims race: both subselects, evaluated against
snapshots taken before either claim committed, pick the single pending
row; the second `UPDATE` blocks on the first's row lock and, after the
first commits, its EvalPlanQual recheck re-evaluates only `id = $X` —
which still holds on the new row version — so it updates and returns the
same row.  Against a store with exactly one pending query (id 1), both
callers receive that query, refuting "exactly one caller receives that
query": the first caller via `claimNext`, the overlapping second caller
via `claimNextRC` with the shared snapshot, leaving no pending row. -/
theorem claim_race_double_delivery :
    (claimNext pendStore).1 = some ⟨1, "p", 5⟩ ∧
    (claimNextRC pendStore (claimNext pendStore).2).1 = some ⟨1, "p", 5⟩ ∧
    ∀ q ∈ (claimNextRC pendStore (claimNext pendStore).2).2.queries,
      q.status ≠ Status.pending := by
  refine ⟨by decide, by decide, by decide⟩

/-- **C5.** The claim operation returns the no-work signal (`null`) if and
only if no query with status `pending` exists in the store; otherwise it
returns exactly one claimed query, as its identifier and search term
together with the fixed dispatch parameter `max_pages = 5`. -/
theorem claim_response_contract (s : Store) :
    ((claimNext s).1 = none ↔ ∀ q ∈ s.queries, q.status ≠ Status.pending) ∧
    (∀ r, (claimNext s).1 = some r →
      r.max_pages = 5 ∧ ∃ q ∈ s.queries, q.status = Status.pending ∧
        r.query_id = q.id ∧ r.search_term = q.search_term) := by
  cases hsel : selectNext s.queries with
  | none =>
      rw [claimNext_of_none s hsel]
      refine ⟨⟨fun _ => (selectNext_eq_none_iff s.queries).mp hsel, fun _ => rfl⟩, ?_⟩
      intro r hr
      simp at hr
  | some q =>
      obtain ⟨hmem, hpend, _⟩ := selectNext_spec s.queries q hsel
      rw [claimNext_of_selected s q hsel]
      constructor
      · simp only [reduceCtorEq, false_iff, not_forall]
        exact ⟨q, hmem, by simp [hpend]⟩
      · intro r hr
        simp only [Option.some.injEq] at hr
        subst hr
        exact ⟨rfl, q, hmem, hpend, rfl, rfl⟩

/-- Witness for C5: the contract evaluated at a concrete one-pending-query
store, where the claim returns id 9, term "bar" and `max_pages = 5`. -/
theorem claim_response_contract_witness :
    (ClaimResp.mk 9 "bar" 5).max_pages = 5 ∧
    ∃ q ∈ ({ projects := [1],
             queries := [{ id := 9, project_id := 1, search_term := "bar",
                           status := Status.pending, priority := 0,
                           created_at := 0, processed_at := none }],
             results := [], suggestions := [], related_searches := [],
             nextId := 10, time := 2 } : Store).queries,
      q.status = Status.pending ∧ (ClaimResp.mk 9 "bar" 5).query_id = q.id ∧
        (ClaimResp.mk 9 "bar" 5).search_term = q.search_term :=
  (claim_response_contract _).2 ⟨9, "bar", 5⟩ (by decide)

/-- **C3.** Whenever at least one pending query exists, the claim
operation selects, among all queries with status `pending`, the one with
the highest priority, breaking ties by earliest creation time; and two
consecutive claims dispense queries in descending (priority, then age)
order. -/
theorem claim_priority_order (s : Store) (q1 q2 : QueryRow)
    (h1 : selectNext s.queries = some q1)
    (h2 : selectNext (claimNext s).2.queries = some q2) :
    (q1 ∈ s.queries ∧ q1.status = Status.pending ∧
      ∀ x ∈ s.queries, x.status = Status.pending →
        x.priority ≤ q1.priority ∧
          (x.priority = q1.priority → q1.created_at ≤ x.created_at)) ∧
    (q2.priority ≤ q1.priority ∧
      (q2.priority = q1.priority → q1.created_at ≤ q2.created_at)) := by
  obtain ⟨hmem1, hpend1, hbest1⟩ := selectNext_spec s.queries q1 h1
  have hopt : ∀ x ∈ s.queries, x.status = Status.pending →
      x.priority ≤ q1.priority ∧
        (x.priority = q1.priority → q1.created_at ≤ x.created_at) := by
    intro x hx hxs
    have := hbest1 x hx (by simp [hxs])
    rw [betterQ_false_iff] at this
    constructor
    · omega
    · omega
  refine ⟨⟨hmem1, hpend1, hopt⟩, ?_⟩
  rw [claimNext_of_selected s q1 h1] at h2
  obtain ⟨hmem2, hpend2, _⟩ := selectNext_spec _ q2 h2
  simp only [List.mem_map] at hmem2
  obtain ⟨x, hx, hxq2⟩ := hmem2
  by_cases hid : x.id = q1.id
  · simp only [hid, beq_self_eq_true, if_true] at hxq2
    rw [← hxq2] at hpend2
    simp [claimUpd] at hpend2
  · have hb : (x.id == q1.id) = false := by simp [hid]
    rw [hb] at hxq2
    simp only [Bool.false_eq_true, if_false] at hxq2
    subst hxq2
    have := hbest1 x hx hpend2
    rw [betterQ_false_iff] at this
    constructor
    · omega
    · omega

/-- Witness for C3: priorities [1, 5, 3] with equal age; the first claim
selects priority 5 and the second selects priority 3. -/
theorem claim_priority_order_witness :
    ((({ id := 2, project_id := 1, search_term := "b", status := Status.pending,
         priority := 5, created_at := 0, processed_at := none } : QueryRow) ∈
        ({ projects := [1],
           queries :=
             [{ id := 1, project_id := 1, search_term := "a", status := Status.pending,
                priority := 1, created_at := 0, processed_at := none },
              { id := 2, project_id := 1, search_term := "b", status := Status.pending,
                priority := 5, created_at := 0, processed_at := none },
              { id := 3, project_id := 1, search_term := "c", status := Status.pending,
                priority := 3, created_at := 0, processed_at := none }],
           results := [], suggestions := [], related_searches := [],
           nextId := 4, time := 0 } : Store).queries ∧
      ({ id := 2, project_id := 1, search_term := "b", status := Status.pending,
         priority := 5, created_at := 0, processed_at := none } : QueryRow).status =
          Status.pending ∧
      ∀ x ∈ ({ projects := [1],
               queries :=
                 [{ id := 1, project_id := 1, search_term := "a", status := Status.pending,
                    priority := 1, created_at := 0, processed_at := none },
                  { id := 2, project_id := 1, search_term := "b", status := Status.pending,
                    priority := 5, created_at := 0, processed_at := none },
                  { id := 3, project_id := 1, search_term := "c", status := Status.pending,
                    priority := 3, created_at := 0, processed_at := none }],
               results := [], suggestions := [], related_searches := [],
               nextId := 4, time := 0 } : Store).queries,
        x.status = Status.pending →
          x.priority ≤ (5 : Int) ∧ (x.priority = (5 : Int) → (0 : Nat) ≤ x.created_at)) ∧
    ((3 : Int) ≤ (5 : Int) ∧ ((3 : Int) = (5 : Int) → (0 : Nat) ≤ (0 : Nat)))) := by
  have h := claim_priority_order
    { projects := [1],
      queries :=
        [{ id := 1, project_id := 1, search_term := "a", status := Status.pending,
           priority := 1, created_at := 0, processed_at := none },
         { id := 2, project_id := 1, search_term := "b", status := Status.pending,
           priority := 5, created_at := 0, processed_at := none },
         { id := 3, project_id := 1, search_term := "c", status := Status.pending,
           priority := 3, created_at := 0, processed_at := none }],
      results := [], suggestions := [], related_searches := [],
      nextId := 4, time := 0 }
    { id := 2, project_id := 1, search_term := "b", status := Status.pending,
      priority := 5, created_at := 0, processed_at := none }
    { id := 3, project_id := 1, search_term := "c", status := Status.pending,
      priority := 3, created_at := 0, processed_at := none }
    (by decide) (by decide)
  exact h

/-- **C7.** When the claim operation claims a query, it modifies only the
selected row (under primary-key uniqueness of ids, exactly one row bears
the returned id), and within that row only the `status` field (to
`processing`) and the `processed_at` timestamp; every other query row,
and every other field of the selected row, is unchanged. -/
theorem claim_frame (s : Store) (r : ClaimResp) (s' : Store)
    (h : claimNext s = (some r, s'))
    (hnd : (s.queries.map (fun q => q.id)).Nodup) :
    (s.queries.map (fun q => q.id)).count r.query_id = 1 ∧
    s'.queries.length = s.queries.length ∧
    ∀ i : Nat, ∀ q : QueryRow, s.queries[i]? = some q →
      (q.id ≠ r.query_id → s'.queries[i]? = some q) ∧
      (q.id = r.query_id →
        ∃ q', s'.queries[i]? = some q' ∧
          q'.id = q.id ∧ q'.project_id = q.project_id ∧
          q'.search_term = q.search_term ∧ q'.priority = q.priority ∧
          q'.created_at = q.created_at ∧
          q'.status = Status.processing ∧ q'.processed_at = some s.time) := by
  cases hsel : selectNext s.queries with
  | none =>
      rw [claimNext_of_none s hsel] at h
      simp at h
  | some qsel =>
      rw [claimNext_of_selected s qsel hsel] at h
      obtain ⟨hmem, _, _⟩ := selectNext_spec s.queries qsel hsel
      simp only [Prod.mk.injEq, Option.some.injEq] at h
      obtain ⟨hr, hs⟩ := h
      subst hr
      refine ⟨?_, ?_, ?_⟩
      · have hin : qsel.id ∈ s.queries.map (fun q => q.id) :=
          List.mem_map.mpr ⟨qsel, hmem, rfl⟩
        have h1 : 0 < (s.queries.map (fun q => q.id)).count qsel.id :=
          List.count_pos_iff.mpr hin
        have h2 : (s.queries.map (fun q => q.id)).count qsel.id ≤ 1 :=
          List.nodup_iff_count_le_one.mp hnd qsel.id
        have h3 : (s.queries.map (fun q => q.id)).count qsel.id = 1 := by omega
        simpa using h3
      · rw [← hs]
        simp
      · intro i q hq
        have hmap : s'.queries[i]? =
            (s.queries[i]?).map
              (fun x => if x.id == qsel.id then claimUpd s.time x else x) := by
          rw [← hs]
          simp [List.getElem?_map]
        constructor
        · intro hne
          rw [hmap, hq]
          have hb : (q.id == qsel.id) = false := by
            simp only [ClaimResp.query_id] at hne
            simp [hne]
          simp only [Option.map_some', hb, Bool.false_eq_true, if_false]
        · intro heq
          simp only [ClaimResp.query_id] at heq
          refine ⟨claimUpd s.time q, ?_, rfl, rfl, rfl, rfl, rfl, rfl, rfl⟩
          rw [hmap, hq]
          simp only [Option.map_some', heq, beq_self_eq_true, if_true]

/-- Witness for C7 at `frameStore` (ids 1 completed, 2 pending): the claim
touches only row 2 and only its status and processed_at fields. -/
theorem claim_frame_witness :
    (frameStore.queries.map (fun q => q.id)).count 2 = 1 ∧
    frameStoreAfter.queries.length = frameStore.queries.length ∧
    ∀ i : Nat, ∀ q : QueryRow, frameStore.queries[i]? = some q →
      (q.id ≠ 2 → frameStoreAfter.queries[i]? = some q) ∧
      (q.id = 2 →
        ∃ q', frameStoreAfter.queries[i]? = some q' ∧
          q'.id = q.id ∧ q'.project_id = q.project_id ∧
          q'.search_term = q.search_term ∧ q'.priority = q.priority ∧
          q'.created_at = q.created_at ∧
          q'.status = Status.processing ∧ q'.processed_at = some 7) :=
  claim_frame frameStore ⟨2, "work", 5⟩ frameStoreAfter (by decide) (by decide)

/-- **C9.** For every request to the claim operation or the submission
operation, if the worker-key request header (`x-api-key`) is absent or
differs from the configured shared secret, the response is an
unauthorized error and no storage query is executed (the store is
unchanged and the executed-statement count is zero). -/
theorem auth_rejects_before_storage (apiKey : Option String) (secret : String)
    (s : Store) (req : SubmitReq)
    (h : apiKey = none ∨ ∃ k, apiKey = some k ∧ k ≠ secret) :
    getNextQuery apiKey secret s = (NextResp.unauthorized, s, 0) ∧
    postResults apiKey secret s req = (SubmitResp.unauthorized, s, 0) := by
  have hv : validApiKey apiKey secret = false := by
    rcases h with h | ⟨k, hk, hne⟩
    · rw [h]
      rfl
    · rw [hk]
      unfold validApiKey
      by_cases he : k = ""
      · simp [he]
      · have h1 : (k == "") = false := by simp [he]
        have h2 : (k == secret) = false := by simp [hne]
        simp [h1, h2]
  constructor
  · unfold getNextQuery
    rw [hv]
    simp
  · unfold postResults
    rw [hv]
    simp

/-- Witness for C9: a wrong key against secret "s3cret" is rejected by both
worker endpoints with no statement executed. -/
theorem auth_rejects_before_storage_witness :
    getNextQuery (some "wrong") "s3cret" pendStore = (NextResp.unauthorized, pendStore, 0) ∧
    postResults (some "wrong") "s3cret" pendStore okReq =
      (SubmitResp.unauthorized, pendStore, 0) :=
  auth_rejects_before_storage (some "wrong") "s3cret" pendStore okReq
    (Or.inr ⟨"wrong", rfl, by decide⟩)

/-- **C6.** For every submission request in which the query identifier or
the page data is missing, the submission operation rejects the request
with a validation error before performing any storage operation: the
store is unchanged and the executed-statement count is zero. -/
theorem submit_validation_before_storage (s : Store) (req : SubmitReq)
    (h : req.query_id = none ∨ req.pages = none) :
    postResultsBody s req = (SubmitResp.validationError, s, 0) := by
  unfold postResultsBody
  rcases h with h | h
  · rw [h]
  · rw [h]
    cases req.query_id <;> rfl

/-- Witness for C6: a request missing `pages` is rejected with the store
untouched and zero statements executed. -/
theorem submit_validation_before_storage_witness :
    postResultsBody pendStore
        { query_id := some 1, pages := none, suggestions := none, related_searches := none } =
      (SubmitResp.validationError, pendStore, 0) :=
  submit_validation_before_storage pendStore
    { query_id := some 1, pages := none, suggestions := none, related_searches := none }
    (Or.inr rfl)

/-- **C2 (code bug).** Claim C2 demands that a failed submission leaves no
child row visible.  The handler issues `BEGIN`/`COMMIT`/`ROLLBACK` through
`pool.query`, which dispatches every statement to whichever pooled
connection is idle; in an execution where the inserts do not run on the
connection that ran `BEGIN` (e.g. under concurrent load), each insert
autocommits individually.  At `overflowReq` (third result row overflows
`INTEGER`), the response is a storage error, yet the two result rows
inserted before the failure remain visible and the query's status is
unchanged — contradicting "no result row for that query is visible". -/
theorem submit_pool_rows_remain_on_error :
    (postResultsPool procStore overflowReq).1 =
        SubmitResp.storageError "integer out of range" ∧
    (postResultsPool procStore overflowReq).2.1.results.length = 2 ∧
    statusOf (postResultsPool procStore overflowReq).2.1 7 =
        some Status.processing := by
  refine ⟨?_, ?_, ?_⟩ <;> decide

-- Frame lemmas for the submission statement runners.

theorem insertResult_ok (s sm : Store) (r : ResultRow)
    (h : insertResult s r = .ok sm) :
    sm = { s with results := s.results ++ [r] } := by
  unfold insertResult at h
  split at h
  · simp at h
  · split at h
    · simp at h
    · simpa using h.symm

theorem insertSuggestion_ok (s sm : Store) (qid : Nat) (t : String)
    (h : insertSuggestion s qid t = .ok sm) :
    sm = { s with suggestions := s.suggestions ++ [⟨qid, t⟩] } := by
  unfold insertSuggestion at h
  split at h
  · simp at h
  · simpa using h.symm

theorem insertRelated_ok (s sm : Store) (qid : Nat) (t : String)
    (h : insertRelated s qid t = .ok sm) :
    sm = { s with related_searches := s.related_searches ++ [⟨qid, t⟩] } := by
  unfold insertRelated at h
  split at h
  · simp at h
  · simpa using h.symm

theorem runResults_ok (rows : List ResultRow) :
    ∀ s s' n, runResults s rows = (none, s', n) →
      s' = { s with results := s.results ++ rows } := by
  induction rows with
  | nil =>
      intro s s' n h
      simp only [runResults, Prod.mk.injEq] at h
      rw [← h.2.1]
      simp
  | cons r rs ih =>
      intro s s' n h
      cases hins : insertResult s r with
      | error e => simp [runResults, hins] at h
      | ok sm =>
          rcases hrec : runResults sm rs with ⟨e0, s0, n0⟩
          simp only [runResults, hins, hrec, Prod.mk.injEq] at h
          obtain ⟨he, hs, _⟩ := h
          subst he hs
          have := ih sm s0 n0 hrec
          rw [this, insertResult_ok s sm r hins]
          simp

theorem runSuggestions_ok (qid : Nat) (ts : List String) :
    ∀ s s' n, runSuggestions s qid ts = (none, s', n) →
      s' = { s with suggestions := s.suggestions ++ ts.map (fun t => ⟨qid, t⟩) } := by
  induction ts with
  | nil =>
      intro s s' n h
      simp only [runSuggestions, Prod.mk.injEq] at h
      rw [← h.2.1]
      simp
  | cons t ts ih =>
      intro s s' n h
      cases hins : insertSuggestion s qid t with
      | error e => simp [runSuggestions, hins] at h
      | ok sm =>
          rcases hrec : runSuggestions sm qid ts with ⟨e0, s0, n0⟩
          simp only [runSuggestions, hins, hrec, Prod.mk.injEq] at h
          obtain ⟨he, hs, _⟩ := h
          subst he hs
          have := ih sm s0 n0 hrec
          rw [this, insertSuggestion_ok s sm qid t hins]
          simp

theorem runRelated_ok (qid : Nat) (ts : List String) :
    ∀ s s' n, runRelated s qid ts = (none, s', n) →
      s' = { s with related_searches := s.related_searches ++ ts.map (fun t => ⟨qid, t⟩) } := by
  induction ts with
  | nil =>
      intro s s' n h
      simp only [runRelated, Prod.mk.injEq] at h
      rw [← h.2.1]
      simp
  | cons t ts ih =>
      intro s s' n h
      cases hins : insertRelated s qid t with
      | error e => simp [runRelated, hins] at h
      | ok sm =>
          rcases hrec : runRelated sm qid ts with ⟨e0, s0, n0⟩
          simp only [runRelated, hins, hrec, Prod.mk.injEq] at h
          obtain ⟨he, hs, _⟩ := h
          subst he hs
          have := ih sm s0 n0 hrec
          rw [this, insertRelated_ok s sm qid t hins]
          simp

theorem runSubmitStmts_ok (s : Store) (qid : Nat) (pages : List Page)
    (sugg rel : List String) (s' : Store) (n : Nat)
    (h : runSubmitStmts s qid pages sugg rel = (none, s', n)) :
    s'.results = s.results ++ collectResultRows qid pages ∧
    s'.suggestions = s.suggestions ++ sugg.map (fun t => ⟨qid, t⟩) ∧
    s'.related_searches = s.related_searches ++ rel.map (fun t => ⟨qid, t⟩) ∧
    s'.queries = s.queries.map
      (fun q => if q.id == qid then { q with status := Status.completed } else q) := by
  rcases h1 : runResults s (collectResultRows qid pages) with ⟨e1, s1, n1⟩
  cases e1 with
  | some e => simp [runSubmitStmts, h1] at h
  | none =>
      rcases h2 : runSuggestions s1 qid sugg with ⟨e2, s2, n2⟩
      cases e2 with
      | some e => simp [runSubmitStmts, h1, h2] at h
      | none =>
          rcases h3 : runRelated s2 qid rel with ⟨e3, s3, n3⟩
          cases e3 with
          | some e => simp [runSubmitStmts, h1, h2, h3] at h
          | none =>
              simp only [runSubmitStmts, h1, h2, h3, Prod.mk.injEq] at h
              obtain ⟨_, hs, _⟩ := h
              subst hs
              rw [runResults_ok _ s s1 n1 h1] at h2
              rw [runSuggestions_ok qid sugg _ s2 n2 h2] at h3
              rw [runRelated_ok qid rel _ s3 n3 h3]
              simp [updateCompleted]

theorem postResultsBody_ok (s : Store) (req : SubmitReq) (qid : Nat)
    (pages : List Page) (s' : Store) (n : Nat)
    (hq : req.query_id = some qid) (hp : req.pages = some pages)
    (h : postResultsBody s req = (SubmitResp.success, s', n)) :
    s'.results = s.results ++ collectResultRows qid pages ∧
    s'.suggestions = s.suggestions ++
      (req.suggestions.getD []).map (fun t => ⟨qid, t⟩) ∧
    s'.related_searches = s.related_searches ++
      (req.related_searches.getD []).map (fun t => ⟨qid, t⟩) ∧
    s'.queries = s.queries.map
      (fun q => if q.id == qid then { q with status := Status.completed } else q) := by
  rcases hrs : runSubmitStmts s qid pages (req.suggestions.getD [])
      (req.related_searches.getD []) with ⟨e0, s0, n0⟩
  cases e0 with
  | some e => simp [postResultsBody, hq, hp, hrs] at h
  | none =>
      simp only [postResultsBody, hq, hp, hrs, Prod.mk.injEq] at h
      obtain ⟨_, hs, _⟩ := h
      subst hs
      exact runSubmitStmts_ok s qid pages _ _ s0 n0 hrs

/-- **C8.** After a successful submission for a query, submitting the same
query identifier a second time appends a second copy of the child rows
(results, suggestions, related searches) rather than replacing the first:
both sets of child rows are visible afterwards, so the submission
operation is not idempotent. -/
theorem submit_not_idempotent (s s1 s2 : Store) (req : SubmitReq) (qid : Nat)
    (pages : List Page) (n1 n2 : Nat)
    (hq : req.query_id = some qid) (hp : req.pages = some pages)
    (h1 : postResultsBody s req = (SubmitResp.success, s1, n1))
    (h2 : postResultsBody s1 req = (SubmitResp.success, s2, n2)) :
    s1.results = s.results ++ collectResultRows qid pages ∧
    s2.results = s.results ++ collectResultRows qid pages ++ collectResultRows qid pages ∧
    s1.suggestions = s.suggestions ++
      (req.suggestions.getD []).map (fun t => ⟨qid, t⟩) ∧
    s2.suggestions = s.suggestions ++
      (req.suggestions.getD []).map (fun t => ⟨qid, t⟩) ++
      (req.suggestions.getD []).map (fun t => ⟨qid, t⟩) ∧
    s1.related_searches = s.related_searches ++
      (req.related_searches.getD []).map (fun t => ⟨qid, t⟩) ∧
    s2.related_searches = s.related_searches ++
      (req.related_searches.getD []).map (fun t => ⟨qid, t⟩) ++
      (req.related_searches.getD []).map (fun t => ⟨qid, t⟩) ∧
    ∀ q' ∈ s2.queries, q'.id = qid → q'.status = Status.completed := by
  obtain ⟨a1, a2, a3, a4⟩ := postResultsBody_ok s req qid pages s1 n1 hq hp h1
  obtain ⟨b1, b2, b3, b4⟩ := postResultsBody_ok s1 req qid pages s2 n2 hq hp h2
  refine ⟨a1, by rw [b1, a1], a2, by rw [b2, a2], a3, by rw [b3, a3], ?_⟩
  intro q' hq' hid
  rw [b4] at hq'
  rw [List.mem_map] at hq'
  obtain ⟨x, _, hx⟩ := hq'
  by_cases hxid : x.id = qid
  · rw [← hx]
    simp [hxid]
  · have hb : (x.id == qid) = false := by simp [hxid]
    rw [hb] at hx
    simp only [Bool.false_eq_true, if_false] at hx
    subst hx
    exact absurd hid hxid

/-- Witness for C8: submitting `okReq` twice against `procStore` leaves
two copies of every child row visible. -/
theorem submit_not_idempotent_witness :
    procStoreOnce.results = procStore.results ++
      collectResultRows 7 [{ page_number := 1, results := some [mkRaw 1] }] ∧
    procStoreTwice.results = procStore.results ++
      collectResultRows 7 [{ page_number := 1, results := some [mkRaw 1] }] ++
      collectResultRows 7 [{ page_number := 1, results := some [mkRaw 1] }] ∧
    procStoreOnce.suggestions = procStore.suggestions ++
      (okReq.suggestions.getD []).map (fun t => ⟨7, t⟩) ∧
    procStoreTwice.suggestions = procStore.suggestions ++
      (okReq.suggestions.getD []).map (fun t => ⟨7, t⟩) ++
      (okReq.suggestions.getD []).map (fun t => ⟨7, t⟩) ∧
    procStoreOnce.related_searches = procStore.related_searches ++
      (okReq.related_searches.getD []).map (fun t => ⟨7, t⟩) ∧
    procStoreTwice.related_searches = procStore.related_searches ++
      (okReq.related_searches.getD []).map (fun t => ⟨7, t⟩) ++
      (okReq.related_searches.getD []).map (fun t => ⟨7, t⟩) ∧
    ∀ q' ∈ procStoreTwice.queries, q'.id = 7 → q'.status = Status.completed :=
  submit_not_idempotent procStore procStoreOnce procStoreTwice okReq 7
    [{ page_number := 1, results := some [mkRaw 1] }] 6 6
    (by decide) (by decide) (by decide) (by decide)

-- The enqueue loop: trims entries, skips blank ones, counts inserts.

theorem find?_id_map (l : List QueryRow) (qid : Nat) (g : QueryRow → QueryRow)
    (hg : ∀ x, (g x).id = x.id) :
    (l.map g).find? (fun q => q.id == qid) =
      (l.find? (fun q => q.id == qid)).map g := by
  rw [List.find?_map]
  have hcomp : ((fun (q : QueryRow) => q.id == qid) ∘ g) = (fun q => q.id == qid) := by
    funext x
    simp [Function.comp, hg x]
  rw [hcomp]

theorem statusRank_le_two (st : Status) : statusRank st ≤ 2 := by
  cases st <;> simp [statusRank]

theorem statusOf_claim_step (s : Store) (qid : Nat) (st : Status)
    (hnd : (s.queries.map (fun q => q.id)).Nodup)
    (h : statusOf s qid = some st) :
    ∃ st', statusOf (claimNext s).2 qid = some st' ∧
      statusRank st ≤ statusRank st' := by
  cases hsel : selectNext s.queries with
  | none =>
      rw [claimNext_of_none s hsel]
      exact ⟨st, h, Nat.le_refl _⟩
  | some q =>
      rw [claimNext_of_selected s q hsel]
      obtain ⟨hmem, hpend, _⟩ := selectNext_spec s.queries q hsel
      unfold statusOf at h ⊢
      have hg : ∀ x, ((fun x => if x.id == q.id then claimUpd s.time x else x) x).id = x.id := by
        intro x
        by_cases hx : x.id = q.id
        · simp [hx, claimUpd]
        · simp [hx]
      rw [Option.map_eq_some'] at h
      obtain ⟨x0, hfind, hst⟩ := h
      have hfmap : (s.queries.map
            (fun x => if x.id == q.id then claimUpd s.time x else x)).find?
              (fun q => q.id == qid) = some
            (if x0.id == q.id then claimUpd s.time x0 else x0) := by
        rw [find?_id_map s.queries qid _ hg, hfind]
        rfl
      by_cases hx0 : x0.id = q.id
      · have hx0m : x0 ∈ s.queries := List.mem_of_find?_eq_some hfind
        have hxq : x0 = q := List.inj_on_of_nodup_map hnd hx0m hmem hx0
        refine ⟨Status.processing, ?_, ?_⟩
        · simp only [hfmap, hx0, beq_self_eq_true, if_true]
          simp [claimUpd]
        · rw [← hst, hxq, hpend]
          simp [statusRank]
      · have hb : (x0.id == q.id) = false := by simp [hx0]
        refine ⟨st, ?_, Nat.le_refl _⟩
        simp only [hfmap, hb, Bool.false_eq_true, if_false, Option.map_some']
        rw [hst]

theorem postResultsBody_store (s : Store) (req : SubmitReq) :
    (postResultsBody s req).2.1 = s ∨
    ∃ tq, req.query_id = some tq ∧
      (postResultsBody s req).2.1.queries = s.queries.map
        (fun q => if q.id == tq then { q with status := Status.completed } else q) := by
  rcases hq : req.query_id with _ | tq
  · left
    simp [postResultsBody, hq]
  · rcases hp : req.pages with _ | pages
    · left
      simp [postResultsBody, hq, hp]
    · rcases hrs : runSubmitStmts s tq pages (req.suggestions.getD [])
          (req.related_searches.getD []) with ⟨e0, s0, n0⟩
      cases e0 with
      | some e =>
          left
          simp [postResultsBody, hq, hp, hrs]
      | none =>
          right
          refine ⟨tq, rfl, ?_⟩
          have hred : (postResultsBody s req).2.1 = s0 := by
            simp [postResultsBody, hq, hp, hrs]
          rw [hred]
          exact (runSubmitStmts_ok s tq pages _ _ s0 n0 hrs).2.2.2

theorem statusOf_submit_step (s : Store) (req : SubmitReq) (qid : Nat) (st : Status)
    (h : statusOf s qid = some st) :
    ∃ st', statusOf (postResultsBody s req).2.1 qid = some st' ∧
      statusRank st ≤ statusRank st' := by
  rcases postResultsBody_store s req with hsame | ⟨tq, _, hqs⟩
  · rw [hsame]
    exact ⟨st, h, Nat.le_refl _⟩
  · unfold statusOf at h ⊢
    rw [hqs]
    have hg : ∀ x, ((fun (q : QueryRow) =>
        if q.id == tq then { q with status := Status.completed } else q) x).id = x.id := by
      intro x
      by_cases hx : x.id = tq
      · simp [hx]
      · simp [hx]
    rw [Option.map_eq_some'] at h
    obtain ⟨x0, hfind, hst⟩ := h
    rw [find?_id_map s.queries qid _ hg, hfind]
    by_cases hx0 : x0.id = tq
    · refine ⟨Status.completed, ?_, ?_⟩
      · simp [hx0]
      · rw [← hst]
        exact statusRank_le_two x0.status
    · have hb : (x0.id == tq) = false := by simp [hx0]
      refine ⟨st, ?_, Nat.le_refl _⟩
      simp only [Option.map_some', hb, Bool.false_eq_true, if_false]
      rw [hst]

theorem statusOf_step (s : Store) (o : Op) (qid : Nat) (st : Status)
    (hnd : (s.queries.map (fun q => q.id)).Nodup)
    (h : statusOf s qid = some st) :
    ∃ st', statusOf (applyOp s o) qid = some st' ∧
      statusRank st ≤ statusRank st' := by
  cases o with
  | claim => exact statusOf_claim_step s qid st hnd h
  | submit req => exact statusOf_submit_step s req qid st h

theorem ids_claimNext (s : Store) :
    (claimNext s).2.queries.map (fun q => q.id) = s.queries.map (fun q => q.id) := by
  cases hsel : selectNext s.queries with
  | none => rw [claimNext_of_none s hsel]
  | some q =>
      rw [claimNext_of_selected s q hsel]
      show (s.queries.map fun x => if x.id == q.id then claimUpd s.time x else x).map
          (fun q => q.id) = s.queries.map (fun q => q.id)
      rw [List.map_map]
      congr 1
      funext x
      by_cases hx : x.id = q.id
      · simp [Function.comp, hx, claimUpd]
      · simp [Function.comp, hx]

theorem ids_postResultsBody (s : Store) (req : SubmitReq) :
    (postResultsBody s req).2.1.queries.map (fun q => q.id) =
      s.queries.map (fun q => q.id) := by
  rcases postResultsBody_store s req with hsame | ⟨tq, _, hqs⟩
  · rw [hsame]
  · rw [hqs, List.map_map]
    congr 1
    funext x
    by_cases hx : x.id = tq
    · simp [Function.comp, hx]
    · simp [Function.comp, hx]

theorem ids_applyOp (s : Store) (o : Op) :
    (applyOp s o).queries.map (fun q => q.id) = s.queries.map (fun q => q.id) := by
  cases o with
  | claim => exact ids_claimNext s
  | submit req => exact ids_postResultsBody s req

theorem statesOf_eq_cons (s : Store) (ops : List Op) :
    ∃ rest, statesOf s ops = s :: rest := by
  cases ops with
  | nil => exact ⟨[], rfl⟩
  | cons o os => exact ⟨statesOf (applyOp s o) os, rfl⟩

theorem observed_chain (qid : Nat) :
    ∀ (ops : List Op) (s : Store),
      (s.queries.map (fun q => q.id)).Nodup →
      List.Chain' statusLE
        ((statesOf s ops).filterMap (fun st => statusOf st qid)) := by
  intro ops
  induction ops with
  | nil =>
      intro s _
      cases h : statusOf s qid <;> simp [statesOf, h]
  | cons o os ih =>
      intro s hnd
      have hnd' : ((applyOp s o).queries.map (fun q => q.id)).Nodup := by
        rw [ids_applyOp]
        exact hnd
      have htail := ih (applyOp s o) hnd'
      show List.Chain' statusLE
        ((s :: statesOf (applyOp s o) os).filterMap (fun st => statusOf st qid))
      cases h : statusOf s qid with
      | none =>
          simp only [List.filterMap_cons, h]
          exact htail
      | some st =>
          obtain ⟨st', hst', hle⟩ := statusOf_step s o qid st hnd h
          obtain ⟨rest, hrest⟩ := statesOf_eq_cons (applyOp s o) os
          rw [hrest] at htail ⊢
          simp only [List.filterMap_cons, h, hst'] at htail ⊢
          exact List.chain'_cons.mpr ⟨hle, htail⟩

theorem chain'_statusLT_of_ne (l : List Status)
    (hne : List.Chain' (fun a b => a ≠ b) l)
    (hle : List.Pairwise statusLE l) : List.Chain' statusLT l := by
  induction l with
  | nil => simp
  | cons a t ih =>
      cases t with
      | nil => simp
      | cons b t2 =>
          rw [List.chain'_cons] at hne ⊢
          rw [List.pairwise_cons] at hle
          refine ⟨?_, ih hne.2 hle.2⟩
          have h1 : statusLE a b := hle.1 b (by simp)
          have h2 : a ≠ b := hne.1
          revert h1 h2
          cases a <;> cases b <;> decide

theorem statusLT_ne (a b : Status) (h : statusLT a b) : a ≠ b := by
  intro heq
  rw [heq] at h
  exact Nat.lt_irrefl _ h

/-- **C4 (amended).** For every query, over any sequence of claim and
submission operations (against a store with primary-key-unique ids), the
observed status sequence is a subsequence — not necessarily a prefix — of
`pending, processing, completed`: statuses only ever move forward in this
order and never revert (the submission operation may complete a `pending`
query directly, skipping `processing`). -/
theorem status_monotone (s : Store) (ops : List Op) (qid : Nat)
    (hnd : (s.queries.map (fun q => q.id)).Nodup) :
    (statusHistory qid s ops).Sublist
      [Status.pending, Status.processing, Status.completed] := by
  unfold statusHistory
  have hobs := observed_chain qid ops s hnd
  have hne : List.Chain' (fun a b => a ≠ b)
      (((statesOf s ops).filterMap (fun st => statusOf st qid)).destutter (· ≠ ·)) :=
    List.destutter_is_chain' _ _
  have hsub : List.Sublist
      (((statesOf s ops).filterMap (fun st => statusOf st qid)).destutter (· ≠ ·))
      ((statesOf s ops).filterMap (fun st => statusOf st qid)) :=
    List.destutter_sublist _ _
  have hpw : List.Pairwise statusLE
      ((statesOf s ops).filterMap (fun st => statusOf st qid)) :=
    List.chain'_iff_pairwise.mp hobs
  have hpw' : List.Pairwise statusLE
      (((statesOf s ops).filterMap (fun st => statusOf st qid)).destutter (· ≠ ·)) :=
    List.Pairwise.sublist hsub hpw
  have hlt := chain'_statusLT_of_ne _ hne hpw'
  have hplt : List.Pairwise statusLT
      (((statesOf s ops).filterMap (fun st => statusOf st qid)).destutter (· ≠ ·)) :=
    List.chain'_iff_pairwise.mp hlt
  have hnodup : (((statesOf s ops).filterMap
      (fun st => statusOf st qid)).destutter (· ≠ ·)).Nodup :=
    hplt.imp (fun h => statusLT_ne _ _ h)
  have hsubset : (((statesOf s ops).filterMap
      (fun st => statusOf st qid)).destutter (· ≠ ·)) ⊆
      [Status.pending, Status.processing, Status.completed] := by
    intro x _
    cases x <;> simp
  have hsp := hnodup.subperm hsubset
  have hsorted2 : List.Sorted statusLT
      [Status.pending, Status.processing, Status.completed] := by
    unfold List.Sorted
    refine List.Pairwise.cons ?_ (List.Pairwise.cons ?_ (List.pairwise_singleton _ _))
    · intro b hb
      rcases List.mem_cons.mp hb with h | h
      · rw [h]; decide
      · rw [List.mem_singleton.mp h]; decide
    · intro b hb
      rw [List.mem_singleton.mp hb]
      decide
  exact List.sublist_of_subperm_of_sorted hsp hplt hsorted2

/-- Witness for the amended C4 at a concrete store and trace. -/
theorem status_monotone_witness :
    (statusHistory 1 pendStore [Op.claim]).Sublist
      [Status.pending, Status.processing, Status.completed] :=
  status_monotone pendStore [Op.claim] 1 (by decide)

/-- **C4 counterexample.** The claim as stated requires the status
sequence to be a prefix of `pending, processing, completed`.  Submitting
results for the still-pending query 1 (allowed: the handler's status
update is unconditional and `pages: []` passes validation) yields the
observed sequence `pending, completed`, which is not a prefix. -/
theorem status_history_not_prefix :
    statusHistory 1 pendStore [Op.submit emptyPagesReq] =
      [Status.pending, Status.completed] ∧
    ¬ ∃ t, statusHistory 1 pendStore [Op.submit emptyPagesReq] ++ t =
        [Status.pending, Status.processing, Status.completed] := by
  have h1 : statusHistory 1 pendStore [Op.submit emptyPagesReq] =
      [Status.pending, Status.completed] := by decide
  refine ⟨h1, ?_⟩
  intro hpre
  obtain ⟨t, ht⟩ := hpre
  rw [h1] at ht
  simp at ht
